import Mathlib

/-!
Shallow embedding of the aesir3 neuron/synapse engine (src/neuron.rs).

Scalars (`f32` in the source) are modelled as rationals `ℚ`; the
`RefCell` interior mutability is modelled by explicit state passing;
`Rc<dyn NeuronicInput>` source handles are modelled as opaque `Source`
indices resolved through an environment function
`Source → ChargeCycle → ℚ` (a `Network` provides the concrete one);
the `BinaryHeap` max-heap pop order is modelled by sorting impulses in
descending `measure` order (ties in implementation-defined order, as in
the source); the `unwrap()` panic in `update_synapses` is modelled by
`Option`.
-/

namespace Aesir3

/-- The two-valued phase alternator (enum ChargeCycle, neuron.rs). -/
inductive ChargeCycle where
  | Even : ChargeCycle
  | Odd : ChargeCycle
deriving DecidableEq, Repr

/-- ChargeCycle::prev_cycle: Even ↦ Odd, Odd ↦ Even. -/
def ChargeCycle.prev_cycle : ChargeCycle → ChargeCycle
  | ChargeCycle.Even => ChargeCycle.Odd
  | ChargeCycle.Odd => ChargeCycle.Even

/-- ChargeCycle::next_cycle, defined in the source as prev_cycle. -/
def ChargeCycle.next_cycle (c : ChargeCycle) : ChargeCycle :=
  c.prev_cycle

/-- struct Impulse: a (measure, weight) pair. -/
structure Impulse where
  measure : ℚ
  weight : ℚ
deriving DecidableEq, Repr

/-- enum SynapticType. -/
inductive SynapticType where
  | Excitatory : SynapticType
  | Inhibitory : SynapticType
deriving DecidableEq, Repr

/-- A pre-synaptic input handle (`Rc<dyn NeuronicInput>` in the source):
either an external sensor or another neuron, addressed by index. -/
inductive Source where
  | sensor (i : Nat) : Source
  | neuron (i : Nat) : Source
deriving DecidableEq, Repr

/-- struct Synapse. -/
structure Synapse where
  weight : ℚ
  synaptic_type : SynapticType
  pre_synaptic_neuron : Source
  last_impulse : Option Impulse
deriving DecidableEq, Repr

/-- Synapse::generate_impulse.  `env` gives each source's
`get_measure`.  Returns the updated synapse (the source mutates
`self.last_impulse`) together with the produced impulse. -/
def Synapse.generate_impulse (env : Source → ChargeCycle → ℚ) (s : Synapse)
    (cycle : ChargeCycle) : Synapse × Impulse :=
  let measure := env s.pre_synaptic_neuron cycle.prev_cycle
  let impulse : Impulse :=
    match s.synaptic_type with
    | SynapticType.Excitatory => { measure := measure, weight := s.weight }
    | SynapticType.Inhibitory => { measure := measure, weight := -1 * s.weight }
  ({ s with last_impulse := some impulse }, impulse)

/-- struct InternalMeasure(f32, f32): the two-slot double buffer. -/
structure InternalMeasure where
  evenMeasure : ℚ
  oddMeasure : ℚ
deriving DecidableEq, Repr

/-- InternalMeasure::new. -/
def InternalMeasure.new : InternalMeasure :=
  { evenMeasure := 0, oddMeasure := 0 }

/-- InternalMeasure::set_measure. -/
def InternalMeasure.set_measure (im : InternalMeasure) (cycle : ChargeCycle)
    (measure : ℚ) : InternalMeasure :=
  match cycle with
  | ChargeCycle.Even => { im with evenMeasure := measure }
  | ChargeCycle.Odd => { im with oddMeasure := measure }

/-- InternalMeasure::get_measure. -/
def InternalMeasure.get_measure (im : InternalMeasure) :
    ChargeCycle → ℚ
  | ChargeCycle.Even => im.evenMeasure
  | ChargeCycle.Odd => im.oddMeasure

/-- InternalMeasure::clear. -/
def InternalMeasure.clear (_im : InternalMeasure) : InternalMeasure :=
  { evenMeasure := 0, oddMeasure := 0 }

/-- struct Neuron. -/
structure Neuron where
  fire_threshold : ℚ
  max_synapse_weight : ℚ
  learning_constant : ℚ
  synapses : List Synapse
  internal_measure : InternalMeasure
deriving DecidableEq, Repr

/-- Neuron::new. -/
def Neuron.new (fire_threshold max_synapse_weight learning_constant : ℚ) :
    Neuron :=
  { fire_threshold := fire_threshold
    max_synapse_weight := max_synapse_weight
    learning_constant := learning_constant
    synapses := []
    internal_measure := InternalMeasure.new }

/-- NeuronicInput::get_measure for Neuron: read the double buffer. -/
def Neuron.get_measure (n : Neuron) (cycle : ChargeCycle) : ℚ :=
  n.internal_measure.get_measure cycle

/-- Insert an impulse into a list sorted by descending measure.  Together
with `sortImpulses` this models the order in which the source's
`BinaryHeap<Impulse>` pops impulses (largest `measure` first; ties in an
implementation-defined but fixed order, matching the source's `Ord`
instance that compares only `measure`). -/
def insertImpulse (i : Impulse) : List Impulse → List Impulse
  | [] => [i]
  | j :: rest =>
      if j.measure < i.measure then i :: j :: rest
      else j :: insertImpulse i rest

/-- Sort impulses by descending measure (the heap pop order). -/
def sortImpulses (l : List Impulse) : List Impulse :=
  l.foldr insertImpulse []

/-- The pop-accumulate loop of Neuron::run_static_cycle: pop the largest
remaining impulse, add its weight to the running total, and the moment
the total reaches `fire_threshold` return that impulse's raw measure; if
the list is exhausted first, return 0. -/
def selectLoop (fire_threshold : ℚ) : List Impulse → ℚ → ℚ
  | [], _ => 0
  | i :: rest, total =>
      let total2 := total + i.weight
      if fire_threshold ≤ total2 then i.measure
      else selectLoop fire_threshold rest total2

/-- Neuron::run_static_cycle: generate an impulse from every synapse,
aggregate greedily by descending measure, and write the selected output
into this cycle's buffer slot. -/
def Neuron.run_static_cycle (env : Source → ChargeCycle → ℚ) (n : Neuron)
    (cycle : ChargeCycle) : Neuron :=
  let step := n.synapses.map (fun s => s.generate_impulse env cycle)
  let out := selectLoop n.fire_threshold (sortImpulses (step.map Prod.snd)) 0
  { n with
    synapses := step.map Prod.fst
    internal_measure := n.internal_measure.set_measure cycle out }

/-- One synapse's step of Neuron::update_synapses.  The source calls
`synapse.last_impulse.unwrap()`, which panics when no aggregation has
populated the cache; the panic is modelled as `none`. -/
def Synapse.update (learning_constant max_synapse_weight fired_measure : ℚ)
    (s : Synapse) : Option Synapse :=
  match s.last_impulse with
  | none => none
  | some imp =>
      let synapse_measure := imp.measure
      let w :=
        if synapse_measure < fired_measure then
          s.weight + learning_constant * (max_synapse_weight - s.weight)
            * synapse_measure
        else
          s.weight + learning_constant * (max_synapse_weight - s.weight)
            * (2 * fired_measure - synapse_measure)
      let w2 :=
        if max_synapse_weight < w then max_synapse_weight - 1/10
        else if w < 0 then 0
        else w
      some { s with weight := w2 }

/-- The iteration of Neuron::update_synapses over the synapse vector. -/
def updateSynapseList (learning_constant max_synapse_weight fired_measure : ℚ) :
    List Synapse → Option (List Synapse)
  | [] => some []
  | s :: rest =>
      match Synapse.update learning_constant max_synapse_weight fired_measure s,
        updateSynapseList learning_constant max_synapse_weight fired_measure rest with
      | some s2, some rest2 => some (s2 :: rest2)
      | _, _ => none

/-- Neuron::update_synapses: read the just-fired measure for the cycle
and apply the learning rule to every synapse. -/
def Neuron.update_synapses (n : Neuron) (cycle : ChargeCycle) : Option Neuron :=
  let fired_measure := n.internal_measure.get_measure cycle
  (updateSynapseList n.learning_constant n.max_synapse_weight fired_measure
      n.synapses).map
    (fun ss => { n with synapses := ss })

/-- Neuronic::run_cycle: aggregation followed by learning on the same
cycle. -/
def Neuron.run_cycle (env : Source → ChargeCycle → ℚ) (n : Neuron)
    (cycle : ChargeCycle) : Option Neuron :=
  (n.run_static_cycle env cycle).update_synapses cycle

/-- Iterated learning ticks: each step supplies the environment for the
tick and the cycle it runs on. -/
def Neuron.run_cycles (steps : List ((Source → ChargeCycle → ℚ) × ChargeCycle))
    (n : Neuron) : Option Neuron :=
  match steps with
  | [] => some n
  | step :: rest => (n.run_cycle step.1 step.2).bind (Neuron.run_cycles rest)

/-- Neuron::clear. -/
def Neuron.clear (n : Neuron) : Neuron :=
  { n with internal_measure := n.internal_measure.clear }

/-- Neuronic::create_synapse. -/
def Neuron.create_synapse (n : Neuron) (starting_weight : ℚ)
    (synaptic_type : SynapticType) (input : Source) : Neuron :=
  { n with
    synapses := n.synapses ++
      [{ weight := starting_weight
         synaptic_type := synaptic_type
         pre_synaptic_neuron := input
         last_impulse := none }] }

/-- A circuit: neurons addressed by index plus externally set sensor
values (NeuronicSensor is phase-insensitive). -/
structure Network where
  neurons : List Neuron
  sensors : List ℚ
deriving DecidableEq, Repr

/-- Resolve a source handle against the network: sensors ignore the
cycle; a neuron reports its buffered measure for the cycle. -/
def Network.read (net : Network) (src : Source) (cycle : ChargeCycle) : ℚ :=
  match src with
  | Source.sensor i => net.sensors.getD i 0
  | Source.neuron i =>
      match net.neurons[i]? with
      | some n => n.get_measure cycle
      | none => 0

/-- Run aggregation on the neuron at index `i` (the driver ticking one
neuron); out-of-range indices leave the network unchanged. -/
def Network.runAt (net : Network) (cycle : ChargeCycle) (i : Nat) : Network :=
  match net.neurons[i]? with
  | none => net
  | some n =>
      { net with neurons := net.neurons.set i (n.run_static_cycle net.read cycle) }

/-- Tick the neurons listed in `order`, one aggregation each, in that
order, all on the same cycle. -/
def Network.runOrder (net : Network) (cycle : ChargeCycle) (order : List Nat) :
    Network :=
  order.foldl (fun m i => m.runAt cycle i) net

/-! ### Helper lemmas -/

lemma prev_cycle_ne (c : ChargeCycle) : c.prev_cycle ≠ c := by
  cases c <;> simp [ChargeCycle.prev_cycle]

lemma get_set_same (im : InternalMeasure) (c : ChargeCycle) (m : ℚ) :
    (im.set_measure c m).get_measure c = m := by
  cases c <;> rfl

lemma get_set_other (im : InternalMeasure) (c c' : ChargeCycle) (m : ℚ)
    (h : c' ≠ c) : (im.set_measure c m).get_measure c' = im.get_measure c' := by
  cases c <;> cases c' <;> first | rfl | exact absurd rfl h

lemma generate_impulse_measure (env : Source → ChargeCycle → ℚ) (s : Synapse)
    (c : ChargeCycle) :
    ((s.generate_impulse env c).2).measure = env s.pre_synaptic_neuron c.prev_cycle := by
  rcases s with ⟨w, t, src, li⟩
  cases t <;> rfl

lemma sortImpulses_cons (i : Impulse) (l : List Impulse) :
    sortImpulses (i :: l) = insertImpulse i (sortImpulses l) := rfl

lemma mem_insertImpulse (a i : Impulse) (l : List Impulse) :
    a ∈ insertImpulse i l ↔ a = i ∨ a ∈ l := by
  induction l with
  | nil => simp [insertImpulse]
  | cons j rest ih =>
      by_cases h : j.measure < i.measure
      · simp [insertImpulse, h]
      · simp [insertImpulse, h, ih]
        tauto

lemma mem_sortImpulses (a : Impulse) (l : List Impulse) :
    a ∈ sortImpulses l ↔ a ∈ l := by
  induction l with
  | nil => simp [sortImpulses]
  | cons i rest ih => rw [sortImpulses_cons, mem_insertImpulse, ih]; simp

lemma selectLoop_mem (t : ℚ) (l : List Impulse) :
    ∀ acc : ℚ, selectLoop t l acc = 0 ∨ selectLoop t l acc ∈ l.map Impulse.measure := by
  induction l with
  | nil => intro acc; left; rfl
  | cons i rest ih =>
      intro acc
      by_cases h : t ≤ acc + i.weight
      · right; simp [selectLoop, h]
      · rcases ih (acc + i.weight) with h0 | hmem
        · left; simpa [selectLoop, h] using h0
        · right
          simp only [selectLoop, h, if_false, List.map_cons, List.mem_cons]
          exact Or.inr hmem

lemma run_static_cycle_get_same (env : Source → ChargeCycle → ℚ) (n : Neuron)
    (c : ChargeCycle) :
    (n.run_static_cycle env c).get_measure c
      = selectLoop n.fire_threshold
          (sortImpulses (n.synapses.map
            (fun s => (Synapse.generate_impulse env s c).2))) 0 := by
  simp [Neuron.run_static_cycle, Neuron.get_measure, get_set_same,
    List.map_map, Function.comp_def]

lemma run_static_cycle_synapses (env : Source → ChargeCycle → ℚ) (n : Neuron)
    (c : ChargeCycle) :
    (n.run_static_cycle env c).synapses
      = n.synapses.map (fun s => (Synapse.generate_impulse env s c).1) := by
  simp [Neuron.run_static_cycle, List.map_map, Function.comp_def]

lemma run_static_cycle_fire_threshold (env : Source → ChargeCycle → ℚ)
    (n : Neuron) (c : ChargeCycle) :
    (n.run_static_cycle env c).fire_threshold = n.fire_threshold := rfl

/-! ### Claim theorems -/

/-- Claim C10: next_cycle and prev_cycle are the same function, each maps
Even to Odd and Odd to Even, and the flip is an involution. -/
theorem next_prev_cycle_involution :
    ∀ c : ChargeCycle,
      c.prev_cycle.prev_cycle = c ∧ c.next_cycle = c.prev_cycle ∧
        ChargeCycle.Even.prev_cycle = ChargeCycle.Odd ∧
        ChargeCycle.Odd.prev_cycle = ChargeCycle.Even := by
  intro c
  cases c <;> exact ⟨rfl, rfl, rfl, rfl⟩

/-- Claim C7: clear resets both buffer slots to 0 — a subsequent read on
either phase returns exactly 0 — and changes nothing else: the synapse
list (weights, types, sources, cached impulses) and the neuron's
parameters are untouched. -/
theorem clear_resets_buffers_only (n : Neuron) :
    (∀ c : ChargeCycle, n.clear.get_measure c = 0) ∧
      n.clear.synapses = n.synapses ∧
      n.clear.fire_threshold = n.fire_threshold ∧
      n.clear.max_synapse_weight = n.max_synapse_weight ∧
      n.clear.learning_constant = n.learning_constant := by
  refine ⟨?_, rfl, rfl, rfl, rfl⟩
  intro c
  cases c <;> rfl

/-- Claim C4, counterexample: generate_impulse does not scale the read
value by the weight — for a weight-2 excitatory synapse reading value 3,
the produced signed weight is 2, not 2 * 3. -/
theorem generate_impulse_not_scaled :
    ((Synapse.generate_impulse (fun _ _ => 3)
        { weight := 2, synaptic_type := SynapticType.Excitatory,
          pre_synaptic_neuron := Source.sensor 0, last_impulse := none }
        ChargeCycle.Even).2).weight
      ≠ 2 * 3 := by
  norm_num [Synapse.generate_impulse]

/-- Claim C4, amended: generate_impulse(p) reads its source's measure for
the phase preceding p, pairs it (unscaled) with the synapse's weight —
negated when the synapse is Inhibitory — stores that
(measure, signed_weight) pair as last_impulse, and returns the same
pair. -/
theorem generate_impulse_spec (env : Source → ChargeCycle → ℚ) (s : Synapse)
    (c : ChargeCycle) :
    ((s.generate_impulse env c).2).measure
        = env s.pre_synaptic_neuron c.prev_cycle ∧
      ((s.generate_impulse env c).2).weight
        = (match s.synaptic_type with
           | SynapticType.Excitatory => s.weight
           | SynapticType.Inhibitory => -s.weight) ∧
      (s.generate_impulse env c).1
        = { s with last_impulse := some (s.generate_impulse env c).2 } := by
  rcases s with ⟨w, t, src, li⟩
  cases t <;> refine ⟨rfl, ?_, rfl⟩ <;> simp [Synapse.generate_impulse]

lemma update_isSome (lc mw F : ℚ) (s : Synapse) :
    (Synapse.update lc mw F s).isSome ↔ s.last_impulse.isSome := by
  rcases s with ⟨w, t, src, li⟩
  cases li <;> simp [Synapse.update]

lemma updateSynapseList_isSome (lc mw F : ℚ) (l : List Synapse) :
    (updateSynapseList lc mw F l).isSome ↔ ∀ s ∈ l, s.last_impulse.isSome := by
  induction l with
  | nil => simp [updateSynapseList]
  | cons s rest ih =>
      cases h1 : Synapse.update lc mw F s with
      | none =>
          have hs : ¬ s.last_impulse.isSome = true := by
            rw [← update_isSome lc mw F s, h1]; simp
          simp [updateSynapseList, h1, hs]
      | some s2 =>
          have hs : s.last_impulse.isSome = true := by
            rw [← update_isSome lc mw F s, h1]; rfl
          cases h2 : updateSynapseList lc mw F rest with
          | none =>
              rw [h2] at ih
              simp only [updateSynapseList, h1, h2]
              simp [hs, ← ih]
          | some l2 =>
              rw [h2] at ih
              simp only [updateSynapseList, h1, h2]
              simp [hs, ← ih]

/-- Claim C5: the learning step succeeds exactly when every synapse's
cached last_impulse has been populated by a prior aggregation pass; with
any unpopulated cache it fails fast (the unwrap panic, modelled as none)
rather than substituting a default. -/
theorem update_synapses_isSome_iff (n : Neuron) (c : ChargeCycle) :
    (n.update_synapses c).isSome ↔ ∀ s ∈ n.synapses, s.last_impulse.isSome := by
  unfold Neuron.update_synapses
  rw [Option.isSome_map']
  exact updateSynapseList_isSome _ _ _ _

/-- Claim C1: the output written by run_static_cycle for the requested
phase is always the raw measure of one of the impulses generated from
the neuron's synapses (the value its source reported for the preceding
phase) or 0 — never a running total, sum, average, or weight. -/
theorem run_static_cycle_output_from_inputs (env : Source → ChargeCycle → ℚ)
    (n : Neuron) (c : ChargeCycle) :
    (n.run_static_cycle env c).get_measure c = 0 ∨
      ∃ s ∈ n.synapses,
        (n.run_static_cycle env c).get_measure c
          = env s.pre_synaptic_neuron c.prev_cycle := by
  rw [run_static_cycle_get_same]
  rcases selectLoop_mem n.fire_threshold
      (sortImpulses (n.synapses.map (fun s => (Synapse.generate_impulse env s c).2))) 0
    with h0 | hmem
  · left; exact h0
  · right
    rcases List.mem_map.mp hmem with ⟨imp, himp, hval⟩
    rcases List.mem_map.mp ((mem_sortImpulses _ _).mp himp) with ⟨s, hs, himp2⟩
    refine ⟨s, hs, ?_⟩
    rw [← hval, ← himp2, generate_impulse_measure]

/-- The learning-rule weight update as the spec states it: with F the
just-computed output and m the cached impulse measure, add
lc * (max − w) * m when m < F, else add lc * (max − w) * (2F − m); then
clamp to max − 0.1 when above max, and to 0 when below 0. -/
def specLearnWeight (lc maxw F w m : ℚ) : ℚ :=
  let w1 := if m < F then w + lc * (maxw - w) * m else w + lc * (maxw - w) * (2 * F - m)
  if w1 > maxw then maxw - 1/10
  else if w1 < 0 then 0
  else w1

lemma updateSynapseList_eq_map (lc mw F : ℚ) (l : List Synapse)
    (h : ∀ s ∈ l, s.last_impulse.isSome) :
    updateSynapseList lc mw F l
      = some (l.map (fun s =>
          { s with weight := specLearnWeight lc mw F s.weight
                              ((s.last_impulse.getD { measure := 0, weight := 0 }).measure) })) := by
  induction l with
  | nil => rfl
  | cons s rest ih =>
      rcases hli : s.last_impulse with _ | imp
      · exact absurd (h s (List.mem_cons_self s rest)) (by simp [hli])
      · have hrest := ih (fun s2 hs2 => h s2 (List.mem_cons_of_mem _ hs2))
        rcases s with ⟨w, t, src, li⟩
        simp only at hli
        subst hli
        simp only [updateSynapseList, Synapse.update, hrest, specLearnWeight,
          Option.getD_some, gt_iff_lt, List.map_cons]

/-- Claim C3: on a neuron whose synapses all carry a populated
last_impulse, update_synapses with just-computed output F rewrites each
synapse's weight by the spec's rule (m < F branch adds
lc*(max−w)*m, the other branch adds lc*(max−w)*(2F−m), then the result
is clamped to max − 0.1 above max and to 0 below 0), leaving everything
else unchanged. -/
theorem update_synapses_formula (n : Neuron) (c : ChargeCycle)
    (h : ∀ s ∈ n.synapses, s.last_impulse.isSome) :
    n.update_synapses c
      = some { n with synapses := n.synapses.map (fun s =>
                        { s with weight := specLearnWeight n.learning_constant
                                            n.max_synapse_weight
                                            (n.internal_measure.get_measure c) s.weight
                                            ((s.last_impulse.getD { measure := 0, weight := 0 }).measure) }) } := by
  have h2 := updateSynapseList_eq_map n.learning_constant n.max_synapse_weight
    (n.internal_measure.get_measure c) n.synapses h
  simp only [Neuron.update_synapses, h2, Option.map_some']

def nC3 : Neuron :=
  { fire_threshold := 10, max_synapse_weight := 8, learning_constant := 1/10,
    synapses := [
      { weight := 6, synaptic_type := SynapticType.Excitatory,
        pre_synaptic_neuron := Source.sensor 0,
        last_impulse := some { measure := 4/5, weight := 6 } },
      { weight := 3, synaptic_type := SynapticType.Inhibitory,
        pre_synaptic_neuron := Source.sensor 1,
        last_impulse := some { measure := 9/10, weight := -3 } }],
    internal_measure := { evenMeasure := 4/5, oddMeasure := 0 } }

/-- Witness for C3 at a concrete two-synapse neuron. -/
theorem update_synapses_formula_witness :
    (∀ s ∈ nC3.synapses, s.last_impulse.isSome) ∧
      nC3.update_synapses ChargeCycle.Even
        = some { nC3 with synapses := nC3.synapses.map (fun s =>
                            { s with weight := specLearnWeight nC3.learning_constant
                                                nC3.max_synapse_weight
                                                (nC3.internal_measure.get_measure ChargeCycle.Even) s.weight
                                                ((s.last_impulse.getD { measure := 0, weight := 0 }).measure) }) } :=
  ⟨by decide, update_synapses_formula nC3 ChargeCycle.Even (by decide)⟩

lemma generate_impulse_stable (env : Source → ChargeCycle → ℚ) (s : Synapse)
    (c : ChargeCycle) :
    Synapse.generate_impulse env (Synapse.generate_impulse env s c).1 c
      = Synapse.generate_impulse env s c := by
  rcases s with ⟨w, t, src, li⟩
  cases t <;> rfl

/-- Claim C9: running aggregation twice in a row on the same phase with
the same environment writes the same output measure both times — the
output is a function of the synapse state and the sources' readings for
the preceding phase only. -/
theorem run_static_cycle_repeat_same_output (env : Source → ChargeCycle → ℚ)
    (n : Neuron) (c : ChargeCycle) :
    ((n.run_static_cycle env c).run_static_cycle env c).get_measure c
      = (n.run_static_cycle env c).get_measure c := by
  rw [run_static_cycle_get_same, run_static_cycle_get_same,
    run_static_cycle_fire_threshold, run_static_cycle_synapses, List.map_map]
  have hmap : ∀ l : List Synapse,
      l.map ((fun s => (Synapse.generate_impulse env s c).2) ∘
        (fun s => (Synapse.generate_impulse env s c).1))
        = l.map (fun s => (Synapse.generate_impulse env s c).2) := by
    intro l
    apply List.map_congr_left
    intro s _
    simp only [Function.comp_apply, generate_impulse_stable]
  rw [hmap]

def nC6 : Neuron :=
  { fire_threshold := 10, max_synapse_weight := 8, learning_constant := 3,
    synapses := [
      { weight := 6, synaptic_type := SynapticType.Excitatory,
        pre_synaptic_neuron := Source.sensor 0, last_impulse := none },
      { weight := 15/2, synaptic_type := SynapticType.Excitatory,
        pre_synaptic_neuron := Source.sensor 1, last_impulse := none },
      { weight := 3, synaptic_type := SynapticType.Inhibitory,
        pre_synaptic_neuron := Source.sensor 2, last_impulse := none },
      { weight := 7, synaptic_type := SynapticType.Inhibitory,
        pre_synaptic_neuron := Source.sensor 3, last_impulse := none }],
    internal_measure := InternalMeasure.new }

def netC6 : Network := { neurons := [nC6], sensors := [9/10, 8/10, 3/10, 4/10] }

/-- Claim C6: with fire_threshold 10, synapse weights 6 (excitatory),
7.5 (excitatory), 3 (inhibitory), 7 (inhibitory) and previous-phase
source measures 0.9, 0.8, 0.3, 0.4, one aggregation pass on a phase
outputs exactly 0.8 (the crossing happens at the second-highest measure:
6 + 7.5 = 13.5 ≥ 10) and leaves the opposite phase's slot at 0. -/
theorem scenario_second_highest_fires :
    (nC6.run_static_cycle netC6.read ChargeCycle.Even).get_measure
        ChargeCycle.Even = 8/10 ∧
      (nC6.run_static_cycle netC6.read ChargeCycle.Even).get_measure
        ChargeCycle.Odd = 0 := by
  norm_num [nC6, netC6, Neuron.run_static_cycle, Synapse.generate_impulse,
    Network.read, sortImpulses, insertImpulse, selectLoop, Neuron.get_measure,
    InternalMeasure.set_measure, InternalMeasure.get_measure,
    InternalMeasure.new, ChargeCycle.prev_cycle, List.getD]

lemma specLearnWeight_bounds (lc mw F w m : ℚ) (hmw : 1/10 ≤ mw) :
    0 ≤ specLearnWeight lc mw F w m ∧ specLearnWeight lc mw F w m ≤ mw := by
  simp only [specLearnWeight, gt_iff_lt]
  split_ifs <;> constructor <;> linarith

lemma update_eq_specLearnWeight (lc mw F : ℚ) (s : Synapse) (imp : Impulse)
    (h : s.last_impulse = some imp) :
    Synapse.update lc mw F s
      = some { s with weight := specLearnWeight lc mw F s.weight imp.measure } := by
  rcases s with ⟨w, t, src, li⟩
  simp only at h
  subst h
  simp only [Synapse.update, specLearnWeight, gt_iff_lt]

lemma update_weight_bounds (lc mw F : ℚ) (hmw : 1/10 ≤ mw) (s s2 : Synapse)
    (h : Synapse.update lc mw F s = some s2) :
    0 ≤ s2.weight ∧ s2.weight ≤ mw := by
  cases hli : s.last_impulse with
  | none =>
      rcases s with ⟨w, t, src, li⟩
      simp only at hli
      subst hli
      simp [Synapse.update] at h
  | some imp =>
      rw [update_eq_specLearnWeight lc mw F s imp hli] at h
      obtain rfl := Option.some_inj.mp h
      simpa using specLearnWeight_bounds lc mw F s.weight imp.measure hmw

lemma updateSynapseList_bounds (lc mw F : ℚ) (hmw : 1/10 ≤ mw) :
    ∀ l l2 : List Synapse, updateSynapseList lc mw F l = some l2 →
      ∀ s ∈ l2, 0 ≤ s.weight ∧ s.weight ≤ mw := by
  intro l
  induction l with
  | nil =>
      intro l2 h s hs
      obtain rfl := Option.some_inj.mp h
      simp at hs
  | cons a rest ih =>
      intro l2 h s hs
      cases h1 : Synapse.update lc mw F a with
      | none => simp [updateSynapseList, h1] at h
      | some a2 =>
          cases h2 : updateSynapseList lc mw F rest with
          | none => simp [updateSynapseList, h1, h2] at h
          | some rest2 =>
              simp only [updateSynapseList, h1, h2, Option.some_inj] at h
              subst h
              rcases List.mem_cons.mp hs with rfl | hmem
              · exact update_weight_bounds lc mw F hmw a _ h1
              · exact ih rest2 h2 s hmem

lemma update_synapses_bounds (n : Neuron) (c : ChargeCycle)
    (hmw : 1/10 ≤ n.max_synapse_weight) (n2 : Neuron)
    (h : n.update_synapses c = some n2) :
    (∀ s ∈ n2.synapses, 0 ≤ s.weight ∧ s.weight ≤ n2.max_synapse_weight) ∧
      n2.max_synapse_weight = n.max_synapse_weight := by
  simp only [Neuron.update_synapses] at h
  cases h2 : updateSynapseList n.learning_constant n.max_synapse_weight
      (n.internal_measure.get_measure c) n.synapses with
  | none => rw [h2] at h; simp at h
  | some l2 =>
      rw [h2] at h
      simp only [Option.map_some', Option.some_inj] at h
      subst h
      exact ⟨updateSynapseList_bounds _ _ _ hmw n.synapses l2 h2, rfl⟩

lemma run_cycle_bounds (env : Source → ChargeCycle → ℚ) (n : Neuron)
    (c : ChargeCycle) (n2 : Neuron) (hmw : 1/10 ≤ n.max_synapse_weight)
    (h : n.run_cycle env c = some n2) :
    (∀ s ∈ n2.synapses, 0 ≤ s.weight ∧ s.weight ≤ n2.max_synapse_weight) ∧
      n2.max_synapse_weight = n.max_synapse_weight :=
  update_synapses_bounds (n.run_static_cycle env c) c hmw n2 h

/-- Claim C2, amended: provided max_synapse_weight ≥ 0.1, after any
number of learning updates (each preceded by same-phase aggregation) on
a neuron whose synapse weights satisfied the bound, every synapse weight
w satisfies 0 ≤ w ≤ max_synapse_weight (the bound is closed at the
ceiling, not strict). -/
theorem weight_invariant_after_updates
    (steps : List ((Source → ChargeCycle → ℚ) × ChargeCycle)) (n : Neuron)
    (hmw : 1/10 ≤ n.max_synapse_weight)
    (h0 : ∀ s ∈ n.synapses, 0 ≤ s.weight ∧ s.weight ≤ n.max_synapse_weight) :
    ∀ n2, Neuron.run_cycles steps n = some n2 →
      ∀ s ∈ n2.synapses, 0 ≤ s.weight ∧ s.weight ≤ n2.max_synapse_weight := by
  induction steps generalizing n with
  | nil =>
      intro n2 h
      obtain rfl := Option.some_inj.mp h
      exact h0
  | cons step rest ih =>
      intro n2 h
      simp only [Neuron.run_cycles] at h
      cases hrc : n.run_cycle step.1 step.2 with
      | none => rw [hrc] at h; simp at h
      | some mid =>
          rw [hrc] at h
          simp only [Option.some_bind] at h
          have hb := run_cycle_bounds step.1 n step.2 mid hmw hrc
          exact ih mid (by rw [hb.2]; exact hmw) hb.1 n2 h

def nC2 : Neuron :=
  { fire_threshold := 0, max_synapse_weight := 1, learning_constant := 1,
    synapses := [
      { weight := 0, synaptic_type := SynapticType.Excitatory,
        pre_synaptic_neuron := Source.sensor 0, last_impulse := none }],
    internal_measure := InternalMeasure.new }

def envC2 : Source → ChargeCycle → ℚ := fun _ _ => 1

def nC2res : Neuron :=
  { fire_threshold := 0, max_synapse_weight := 1, learning_constant := 1,
    synapses := [
      { weight := 1, synaptic_type := SynapticType.Excitatory,
        pre_synaptic_neuron := Source.sensor 0,
        last_impulse := some { measure := 1, weight := 0 } }],
    internal_measure := { evenMeasure := 1, oddMeasure := 0 } }

def nC2b : Neuron :=
  { fire_threshold := 0, max_synapse_weight := 1/20, learning_constant := 1,
    synapses := [
      { weight := 0, synaptic_type := SynapticType.Excitatory,
        pre_synaptic_neuron := Source.sensor 0, last_impulse := none }],
    internal_measure := InternalMeasure.new }

def envC2b : Source → ChargeCycle → ℚ := fun _ _ => 10

def nC2bres : Neuron :=
  { fire_threshold := 0, max_synapse_weight := 1/20, learning_constant := 1,
    synapses := [
      { weight := -1/20, synaptic_type := SynapticType.Excitatory,
        pre_synaptic_neuron := Source.sensor 0,
        last_impulse := some { measure := 10, weight := 0 } }],
    internal_measure := { evenMeasure := 10, oddMeasure := 0 } }

/-- Claim C2, counterexample: two neurons whose synapse weights satisfy
0 ≤ w < max before a single aggregation-plus-learning tick.  After the
tick, the first (max = 1, lc = 1, source value 1) holds a weight exactly
equal to max, refuting the strict upper bound; the second
(max = 1/20 < 0.1, lc = 1, source value 10) is clamped to
max − 0.1 = −1/20 < 0, refuting the lower bound. -/
theorem weight_invariant_counterexample :
    (∀ s ∈ nC2.synapses, 0 ≤ s.weight ∧ s.weight < nC2.max_synapse_weight) ∧
      Neuron.run_cycle envC2 nC2 ChargeCycle.Even = some nC2res ∧
      (∃ s ∈ nC2res.synapses, ¬ s.weight < nC2res.max_synapse_weight) ∧
      (∀ s ∈ nC2b.synapses, 0 ≤ s.weight ∧ s.weight < nC2b.max_synapse_weight) ∧
      Neuron.run_cycle envC2b nC2b ChargeCycle.Even = some nC2bres ∧
      (∃ s ∈ nC2bres.synapses, ¬ 0 ≤ s.weight) := by
  refine ⟨by norm_num [nC2], ?_, by norm_num [nC2res], by norm_num [nC2b], ?_,
    by norm_num [nC2bres]⟩ <;>
    norm_num [nC2, envC2, nC2res, nC2b, envC2b, nC2bres, Neuron.run_cycle,
      Neuron.run_static_cycle, Synapse.generate_impulse, sortImpulses,
      insertImpulse, selectLoop, Neuron.update_synapses, updateSynapseList,
      Synapse.update, InternalMeasure.set_measure, InternalMeasure.get_measure,
      InternalMeasure.new, ChargeCycle.prev_cycle]

/-- Witness for the amended C2 at a concrete one-synapse neuron run for
one tick. -/
theorem weight_invariant_after_updates_witness :
    (1/10 ≤ nC2.max_synapse_weight) ∧
      (∀ s ∈ nC2.synapses, 0 ≤ s.weight ∧ s.weight ≤ nC2.max_synapse_weight) ∧
      (∀ n2, Neuron.run_cycles [(envC2, ChargeCycle.Even)] nC2 = some n2 →
        ∀ s ∈ n2.synapses, 0 ≤ s.weight ∧ s.weight ≤ n2.max_synapse_weight) :=
  ⟨by norm_num [nC2], by norm_num [nC2],
    weight_invariant_after_updates [(envC2, ChargeCycle.Even)] nC2
      (by norm_num [nC2]) (by norm_num [nC2])⟩

lemma generate_impulse_env_congr (env1 env2 : Source → ChargeCycle → ℚ)
    (c : ChargeCycle)
    (h : ∀ src, env1 src c.prev_cycle = env2 src c.prev_cycle) (s : Synapse) :
    Synapse.generate_impulse env1 s c = Synapse.generate_impulse env2 s c := by
  unfold Synapse.generate_impulse
  rw [h]

lemma run_static_cycle_env_congr (env1 env2 : Source → ChargeCycle → ℚ)
    (n : Neuron) (c : ChargeCycle)
    (h : ∀ src, env1 src c.prev_cycle = env2 src c.prev_cycle) :
    n.run_static_cycle env1 c = n.run_static_cycle env2 c := by
  unfold Neuron.run_static_cycle
  have hg := generate_impulse_env_congr env1 env2 c h
  simp only [hg]

lemma run_static_cycle_get_prev (env : Source → ChargeCycle → ℚ) (n : Neuron)
    (c : ChargeCycle) :
    (n.run_static_cycle env c).get_measure c.prev_cycle
      = n.get_measure c.prev_cycle := by
  simp only [Neuron.run_static_cycle, Neuron.get_measure]
  exact get_set_other _ _ _ _ (prev_cycle_ne c)

lemma runAt_none (net : Network) (c : ChargeCycle) (i : Nat)
    (h : net.neurons[i]? = none) : net.runAt c i = net := by
  simp [Network.runAt, h]

lemma runAt_some (net : Network) (c : ChargeCycle) (i : Nat) (n : Neuron)
    (h : net.neurons[i]? = some n) :
    net.runAt c i
      = { net with neurons := net.neurons.set i (n.run_static_cycle net.read c) } := by
  simp [Network.runAt, h]

lemma runAt_read_prev (net : Network) (c : ChargeCycle) (i : Nat) (src : Source) :
    (net.runAt c i).read src c.prev_cycle = net.read src c.prev_cycle := by
  cases hni : net.neurons[i]? with
  | none => rw [runAt_none net c i hni]
  | some n =>
      rw [runAt_some net c i n hni]
      cases src with
      | sensor j => rfl
      | neuron j =>
          by_cases hij : j = i
          · subst hij
            have hlen : j < net.neurons.length := (List.getElem?_eq_some.mp hni).1
            simp only [Network.read, List.getElem?_set_self hlen, hni]
            exact run_static_cycle_get_prev net.read n c
          · simp only [Network.read,
              List.getElem?_set_ne (fun he : i = j => hij he.symm)]

lemma runAt_comm (net : Network) (c : ChargeCycle) (i j : Nat) (hij : i ≠ j) :
    (net.runAt c i).runAt c j = (net.runAt c j).runAt c i := by
  cases hni : net.neurons[i]? with
  | none =>
      cases hnj : net.neurons[j]? with
      | none =>
          rw [runAt_none net c i hni, runAt_none net c j hnj,
            runAt_none net c i hni]
      | some nj =>
          rw [runAt_none net c i hni]
          refine (runAt_none _ c i ?_).symm
          rw [runAt_some net c j nj hnj]
          simpa [List.getElem?_set_ne hij.symm] using hni
  | some ni =>
      cases hnj : net.neurons[j]? with
      | none =>
          rw [runAt_none net c j hnj]
          refine runAt_none _ c j ?_
          rw [runAt_some net c i ni hni]
          simpa [List.getElem?_set_ne hij] using hnj
      | some nj =>
          have hreadI : ∀ src, (net.runAt c i).read src c.prev_cycle
              = net.read src c.prev_cycle := runAt_read_prev net c i
          have hreadJ : ∀ src, (net.runAt c j).read src c.prev_cycle
              = net.read src c.prev_cycle := runAt_read_prev net c j
          have hI := runAt_some net c i ni hni
          have hJ := runAt_some net c j nj hnj
          have hgetJ : (net.runAt c i).neurons[j]? = some nj := by
            rw [hI]; simpa [List.getElem?_set_ne hij] using hnj
          have hgetI : (net.runAt c j).neurons[i]? = some ni := by
            rw [hJ]; simpa [List.getElem?_set_ne hij.symm] using hni
          rw [runAt_some _ c j nj hgetJ, runAt_some _ c i ni hgetI]
          have hrscJ : nj.run_static_cycle (net.runAt c i).read c
              = nj.run_static_cycle net.read c :=
            run_static_cycle_env_congr _ _ nj c hreadI
          have hrscI : ni.run_static_cycle (net.runAt c j).read c
              = ni.run_static_cycle net.read c :=
            run_static_cycle_env_congr _ _ ni c hreadJ
          rw [hrscJ, hrscI, hI, hJ]
          simp only [Network.mk.injEq, and_true]
          exact List.set_comm _ _ _ hij

/-- Claim C8: ticking every neuron of a network exactly once on the same
phase produces the same network — in particular the same output measure
in every neuron — no matter in which order the neurons are run, because
every cross-neuron read is lagged by one phase. -/
theorem run_order_irrelevant (net : Network) (c : ChargeCycle)
    (order : List Nat) (h : order.Perm (List.range net.neurons.length)) :
    net.runOrder c order = net.runOrder c (List.range net.neurons.length) := by
  unfold Network.runOrder
  refine h.foldl_eq' ?_ net
  intro x _ y _ z
  by_cases hxy : x = y
  · rw [hxy]
  · exact runAt_comm z c x y hxy

def netC8 : Network :=
  { neurons := [
      { fire_threshold := 1, max_synapse_weight := 8, learning_constant := 1,
        synapses := [
          { weight := 2, synaptic_type := SynapticType.Excitatory,
            pre_synaptic_neuron := Source.sensor 0, last_impulse := none }],
        internal_measure := { evenMeasure := 0, oddMeasure := 3/5 } },
      { fire_threshold := 1, max_synapse_weight := 8, learning_constant := 1,
        synapses := [
          { weight := 2, synaptic_type := SynapticType.Excitatory,
            pre_synaptic_neuron := Source.sensor 1, last_impulse := none }],
        internal_measure := { evenMeasure := 0, oddMeasure := 7/10 } },
      { fire_threshold := 3, max_synapse_weight := 8, learning_constant := 1,
        synapses := [
          { weight := 2, synaptic_type := SynapticType.Excitatory,
            pre_synaptic_neuron := Source.neuron 0, last_impulse := none },
          { weight := 2, synaptic_type := SynapticType.Excitatory,
            pre_synaptic_neuron := Source.neuron 1, last_impulse := none }],
        internal_measure := InternalMeasure.new }],
    sensors := [1/2, 9/10] }

/-- Witness for C8: neurons A and B (indices 0, 1) feed C (index 2);
ticking in the order C, A, B gives the same network as A, B, C. -/
theorem run_order_irrelevant_witness :
    ([2, 0, 1] : List Nat).Perm (List.range netC8.neurons.length) ∧
      netC8.runOrder ChargeCycle.Even [2, 0, 1]
        = netC8.runOrder ChargeCycle.Even (List.range netC8.neurons.length) :=
  ⟨by decide, run_order_irrelevant netC8 ChargeCycle.Even [2, 0, 1] (by decide)⟩

end Aesir3
